import Mathlib

/-!
Verification of the pdftools repository (a Flask PDF-tools web service).

Python strings are modelled as lists of characters (one element per code
point).  Filesystem paths are lists of path segments, so that
os.path.join root name is append of one more segment.  Python float
arithmetic (page geometry, compression ratio) is modelled as exact
rational arithmetic over the same formulas.  Machine file sizes are Nat.

The definitions below are shallow embeddings of the functions in
src/utils.py, src/services/*.py and src/routes/pdf_routes.py; external
libraries used by the repository (werkzeug secure_filename, the os
module, Python int parsing, os.path.splitext) are modelled from their
documented behaviour on ASCII input.
-/

namespace PdfTools

/-- Characters of a Lean string literal, used to write Python string
constants as lists of characters. -/
def ofs (s : String) : List Char := s.data

/-- Python str.isspace set used by str.split with no argument
(space, tab, newline, carriage return, vertical tab, form feed). -/
def pyIsSpace (c : Char) : Bool :=
  c = ' ' || c = '\t' || c = '\n' || c = '\r' || c = '\x0b' || c = '\x0c'

/-- The character class kept by the werkzeug regex [A-Za-z0-9_.-]. -/
def allowedChar (c : Char) : Bool :=
  ('A' ≤ c && c ≤ 'Z') || ('a' ≤ c && c ≤ 'z') || ('0' ≤ c && c ≤ '9') ||
    c = '_' || c = '.' || c = '-'

/-- The characters removed from both ends by str.strip of the two
characters dot and underscore. -/
def stripChar (c : Char) : Bool := c = '.' || c = '_'

/-- Model of unicodedata NFKD normalisation followed by encode ascii
with errors ignore: on ASCII input NFKD is the identity and the encode
step drops nothing, so the composite is modelled as keeping exactly the
ASCII characters. -/
def asciiOnly (l : List Char) : List Char := l.filter (fun c => c.toNat < 128)

/-- werkzeug secure_filename replaces the os path separator (slash on
posix; altsep is none) by a space. -/
def sepToSpace (l : List Char) : List Char :=
  l.map (fun c => if c = '/' then ' ' else c)

/-- Python str.split with no argument: split on whitespace runs and
drop empty pieces. -/
def pyWords (l : List Char) : List (List Char) :=
  (l.splitOnP pyIsSpace).filter (fun w => ¬ w.isEmpty)

/-- Python underscore.join of a list of words. -/
def joinUnderscore (ws : List (List Char)) : List Char :=
  List.intercalate [('_' : Char)] ws

/-- The werkzeug regex substitution that deletes every character outside
[A-Za-z0-9_.-]. -/
def keepAllowed (l : List Char) : List Char := l.filter allowedChar

/-- Python str.strip of dot and underscore: drop such characters from
both ends. -/
def stripEnds (l : List Char) : List Char :=
  List.rdropWhile stripChar (List.dropWhile stripChar l)

/-- werkzeug.utils.secure_filename, modelled for ASCII input, on posix
(no windows device-name special case):
ascii fold, replace the separator by space, underscore-join the
whitespace-split words, delete disallowed characters, strip dots and
underscores from the ends. -/
def secure_filename (l : List Char) : List Char :=
  stripEnds (keepAllowed (joinUnderscore (pyWords (sepToSpace (asciiOnly l)))))

/-! ### Filesystem paths -/

/-- A path segment: one Python string. -/
abbrev Seg := List Char

/-- A filesystem path, as the list of its segments below the filesystem
root; os.path.join root name appends one segment. -/
abbrev FPath := List Seg

/-- os.path.join of a directory path and one further name. -/
def os_path_join (d : FPath) (name : Seg) : FPath := d ++ [name]

/-- utils.create_temp_directory: the per job directory, upload folder
joined with the generated unique id. -/
def create_temp_directory (base : FPath) (uid : Seg) : FPath :=
  os_path_join base uid

/-- Decimal digits of a Nat, modelling the Python f-string rendering of
an int. -/
def natChars (n : Nat) : Seg := (Nat.repr n).data

/-- utils.save_uploaded_files: the staged copy of upload number i is
named temp_ i _ secured original name. -/
def stagedFileName (i : Nat) (orig : Seg) : Seg :=
  ofs "temp_" ++ natChars i ++ ofs "_" ++ secure_filename orig

/-- utils.secure_output_filename: default when empty, force a .pdf
suffix, then secure the result. -/
def secure_output_filename (fname defaultName : Seg) : Seg :=
  let f := if fname.isEmpty then defaultName else fname
  let f2 := if (ofs ".pdf").isSuffixOf f then f else f ++ ofs ".pdf"
  secure_filename f2

/-! ### Filesystem state, modelling the os module calls used by
utils.cleanup_files -/

/-- A filesystem entry is a regular file or a directory. -/
inductive FsEntry
  | file
  | dir
deriving DecidableEq

/-- A filesystem: a finite association of paths to entries. -/
structure Fs where
  entries : List (FPath × FsEntry)
deriving DecidableEq

/-- The entry at a path, if any. -/
def Fs.lookupEntry (fs : Fs) (p : FPath) : Option FsEntry :=
  fs.entries.lookup p

/-- os.path.exists. -/
def os_path_exists (fs : Fs) (p : FPath) : Bool :=
  (fs.lookupEntry p).isSome

/-- os.path.isfile. -/
def os_path_isfile (fs : Fs) (p : FPath) : Bool :=
  fs.lookupEntry p == some .file

/-- os.path.isdir. -/
def os_path_isdir (fs : Fs) (p : FPath) : Bool :=
  fs.lookupEntry p == some .dir

/-- Whether os.listdir of a directory is empty: no entry of the
filesystem is an immediate child of p. -/
def os_listdir_isEmpty (fs : Fs) (p : FPath) : Bool :=
  fs.entries.all (fun e => !(e.1.length == p.length + 1 && p.isPrefixOf e.1))

/-- Removing the entry at one path (os.remove on a file, os.rmdir on an
empty directory). -/
def Fs.removePath (fs : Fs) (p : FPath) : Fs :=
  ⟨fs.entries.filter (fun e => !(e.1 == p))⟩

/-- An oracle saying which os deletion calls raise OSError (permission
denied and similar); it stands for the nondeterministic environment. -/
structure OsErrors where
  removeFails : FPath → Bool
  rmdirFails : FPath → Bool

/-- The body of the try block inside utils.cleanup_files for one path:
if the path exists, remove it when a file, and when a directory remove
it only when os.listdir is empty; deletion calls may raise. -/
def cleanupBody (err : OsErrors) (fs : Fs) (p : FPath) : Except Seg Fs :=
  if os_path_exists fs p then
    if os_path_isfile fs p then
      if err.removeFails p then .error (ofs "OSError") else .ok (fs.removePath p)
    else if os_path_isdir fs p then
      if os_listdir_isEmpty fs p then
        if err.rmdirFails p then .error (ofs "OSError") else .ok (fs.removePath p)
      else .ok fs
    else .ok fs
  else .ok fs

/-- The loop of delayed_cleanup in utils.cleanup_files, with the
per path try block catching every exception and continuing; the result
is the final filesystem. -/
def delayedCleanupRun (err : OsErrors) (fs : Fs) : List FPath → Fs
  | [] => fs
  | p :: ps =>
    match cleanupBody err fs p with
    | .ok fs2 => delayedCleanupRun err fs2 ps
    | .error _ => delayedCleanupRun err fs ps

/-- The same loop, keeping track of whether an exception escapes it:
the except clause swallows the error of each iteration, so an error
value could only arise outside every try block. -/
def delayedCleanupE (err : OsErrors) (fs : Fs) : List FPath → Except Seg Fs
  | [] => .ok fs
  | p :: ps =>
    match cleanupBody err fs p with
    | .ok fs2 => delayedCleanupE err fs2 ps
    | .error _ => delayedCleanupE err fs ps

/-- What a call of utils.cleanup_files has done when it returns: the
filesystem at return time, and the paths whose deletion was handed to a
background thread together with its delay. -/
structure CleanupCall where
  fsAtReturn : Fs
  deferredPaths : List FPath
  deferredDelay : Nat
deriving DecidableEq

/-- utils.cleanup_files: with a positive delay the deletion work is
deferred to a daemon thread and the filesystem is untouched at return;
with delay zero the loop runs before returning. -/
def cleanup_files (err : OsErrors) (fs : Fs) (paths : List FPath)
    (delay : Nat) : CleanupCall :=
  if 0 < delay then ⟨fs, paths, delay⟩
  else ⟨delayedCleanupRun err fs paths, [], 0⟩

/-- The environment in which no os deletion call fails. -/
def noOsErrors : OsErrors := ⟨fun _ => false, fun _ => false⟩

/-! ### Python int parsing, for the split range tokens -/

/-- Digits of a Python decimal int literal after the first digit,
allowing a single underscore between two digits, accumulating the
value. -/
def pyDigitsCore : Nat → List Char → Option Nat
  | acc, [] => some acc
  | acc, '_' :: c :: rest =>
    if c.isDigit then pyDigitsCore (acc * 10 + (c.toNat - 48)) rest else none
  | acc, c :: rest =>
    if c.isDigit then pyDigitsCore (acc * 10 + (c.toNat - 48)) rest else none

/-- Digit part of a Python int literal: at least one digit, single
underscores allowed between digits. -/
def pyDigits : List Char → Option Nat
  | [] => none
  | c :: rest => if c.isDigit then pyDigitsCore (c.toNat - 48) rest else none

/-- Python int() strips surrounding whitespace. -/
def pyStripWs (l : List Char) : List Char :=
  List.rdropWhile pyIsSpace (List.dropWhile pyIsSpace l)

/-- Python int() on a string: optional surrounding whitespace, optional
sign, decimal digits (ASCII model); none models the ValueError. -/
def pyInt (l : List Char) : Option Int :=
  match pyStripWs l with
  | '+' :: rest => (pyDigits rest).map (fun n => (n : Int))
  | '-' :: rest => (pyDigits rest).map (fun n => -(n : Int))
  | rest => (pyDigits rest).map (fun n => (n : Int))

/-- Python str.split on one separator character: keeps empty pieces,
and the empty string yields one empty piece. -/
def splitOnChar (sep : Char) : List Char → List (List Char)
  | [] => [[]]
  | c :: rest =>
    match splitOnChar sep rest with
    | [] => if c = sep then [[], []] else [[c]]
    | w :: ws => if c = sep then [] :: w :: ws else (c :: w) :: ws

/-! ### PDF splitter service (src/services/pdf_splitter.py)

A PDF document is modelled as the list of its pages. -/

/-- Python range(a, b) over ints. -/
def intRange (a b : Int) : List Int :=
  (List.range (b - a).toNat).map (fun i : Nat => a + (i : Int))

/-- PDFSplitterService. _split_into_ranges, body for one range token:
parse a dash pair or a single page number, clamp a dash pair to the
document, reject an inverted pair and an out of range single page, and
collect the pages of the accepted range (1 based inclusive, converted
to 0 based). -/
def parsePageRange [Inhabited α] (pages : List α) (tok : Seg) :
    Except Seg (List α) :=
  let total : Int := pages.length
  if tok.contains '-' then
    match splitOnChar '-' tok with
    | [a, b] =>
      match pyInt a, pyInt b with
      | some s0, some e0 =>
        let s := max 1 s0
        let e := min total e0
        if e < s then
          .error (ofs "Invalid range: " ++ tok ++ ofs " (start > end)")
        else
          .ok (((intRange (s - 1) e).filter (fun i => i < total)).map
            (fun i => pages.getD i.toNat default))
      | _, _ => .error (ofs "Invalid page range format: " ++ tok)
    | _ => .error (ofs "Invalid page range format: " ++ tok)
  else
    match pyInt tok with
    | some n =>
      if n < 1 ∨ total < n then
        .error (ofs "Invalid page number: " ++ (n.repr).data ++
          ofs " (valid range: 1-" ++ (total.repr).data ++ ofs ")")
      else .ok [pages.getD (n - 1).toNat default]
    | none => .error (ofs "Invalid page range format: " ++ tok)

/-- Specification predicate for stating the claims: a token containing
a dash is malformed when its dash split is not exactly two pieces that
both parse as Python ints (in the source, unpacking or int() then
raises ValueError). -/
def dashPairMalformed (tok : Seg) : Bool :=
  match splitOnChar '-' tok with
  | [x, y] => (pyInt x).isNone || (pyInt y).isNone
  | _ => true

/-- The loop of _split_into_ranges over the tokens: the first failing
token aborts the whole operation. -/
def collectRanges [Inhabited α] (pages : List α) :
    List Seg → Except Seg (List (List α))
  | [] => .ok []
  | t :: ts =>
    match parsePageRange pages t with
    | .error e => .error e
    | .ok out =>
      match collectRanges pages ts with
      | .error e => .error e
      | .ok outs => .ok (out :: outs)

/-- PDFSplitterService. _split_into_ranges: empty token list is
rejected; otherwise one output document per accepted token, with the
reported count. -/
def split_into_ranges [Inhabited α] (pages : List α) (toks : List Seg) :
    Except Seg (List (List α) × Nat) :=
  if toks.isEmpty then .error (ofs "No page ranges specified")
  else
    match collectRanges pages toks with
    | .error e => .error e
    | .ok outs => .ok (outs, outs.length)

/-- PDFSplitterService. _split_into_pages: one single page output per
page of the input, plus the reported count. -/
def split_into_pages [Inhabited α] (pages : List α) : List (List α) × Nat :=
  ((List.range pages.length).map (fun i => [pages.getD i default]),
    pages.length)

/-- Output file path of page number pageNum (1 based) written by
_split_into_pages. -/
def splitterPagePath (root : FPath) (uid outName : Seg) (pageNum : Nat) :
    FPath :=
  os_path_join (create_temp_directory root uid)
    (outName ++ ofs "-page-" ++ natChars pageNum ++ ofs ".pdf")

/-- Output file path of one range written by _split_into_ranges, with
its resolved range description. -/
def splitterRangePath (root : FPath) (uid outName desc : Seg) : FPath :=
  os_path_join (create_temp_directory root uid)
    (outName ++ ofs "-" ++ desc ++ ofs ".pdf")

/-- Path of the zip archive produced by split_pdf. -/
def splitterZipPath (root : FPath) (uid outName : Seg) : FPath :=
  os_path_join (create_temp_directory root uid) (outName ++ ofs "-split.zip")

/-- Path of the staged input copy saved by split_pdf. -/
def splitterStagedPath (root : FPath) (uid : Seg) (i : Nat) (orig : Seg) :
    FPath :=
  os_path_join (create_temp_directory root uid) (stagedFileName i orig)

/-- PDFSplitterService.get_file_path: upload folder, unique id,
filename. -/
def splitterGetFilePath (root : FPath) (uid fname : Seg) : FPath :=
  os_path_join (os_path_join root uid) fname

/-! ### PDF merger service (src/services/pdf_merger.py) -/

/-- Path of staged input number i saved by merge_files. -/
def mergerStagedPath (root : FPath) (uid : Seg) (i : Nat) (orig : Seg) :
    FPath :=
  os_path_join (create_temp_directory root uid) (stagedFileName i orig)

/-- Path of the merged output written by _merge_pdf_files, after
secure_output_filename. -/
def mergerOutputPath (root : FPath) (uid rawOutName : Seg) : FPath :=
  os_path_join (create_temp_directory root uid)
    (secure_output_filename rawOutName (ofs "merged-document.pdf"))

/-- PDFMergerService.get_file_path. -/
def mergerGetFilePath (root : FPath) (uid fname : Seg) : FPath :=
  os_path_join (os_path_join root uid) fname

/-! ### PDF to Word and Word to PDF services -/

/-- Path of the staged input saved by PDFToWordService.convert_file. -/
def pdfToWordStagedPath (root : FPath) (uid : Seg) (i : Nat) (orig : Seg) :
    FPath :=
  os_path_join (create_temp_directory root uid) (stagedFileName i orig)

/-- Path of the docx output written by _convert_pdf_to_word. -/
def pdfToWordOutputPath (root : FPath) (uid outName : Seg) : FPath :=
  os_path_join (create_temp_directory root uid) outName

/-- PDFToWordService.get_file_path. -/
def pdfToWordGetFilePath (root : FPath) (uid fname : Seg) : FPath :=
  os_path_join (os_path_join root uid) fname

/-- Path of the staged input saved by convert_word_to_pdf. -/
def wordToPdfStagedPath (root : FPath) (uid : Seg) (i : Nat) (orig : Seg) :
    FPath :=
  os_path_join (create_temp_directory root uid) (stagedFileName i orig)

/-- Path of the pdf output written by _convert_docx_to_pdf. -/
def wordToPdfOutputPath (root : FPath) (uid outName : Seg) : FPath :=
  os_path_join (create_temp_directory root uid) outName

/-- WordToPDFService.get_file_path. -/
def wordToPdfGetFilePath (root : FPath) (uid fname : Seg) : FPath :=
  os_path_join (os_path_join root uid) fname

/-! ### PDF compressor service (src/services/pdf_compressor.py) -/

/-- Path of the temporary upload copy saved by compress_pdf: a sibling
of the upload folder entries, named temp_ uid _ secured name. -/
def compressorTempPath (root : FPath) (uid orig : Seg) : FPath :=
  os_path_join root (ofs "temp_" ++ uid ++ ofs "_" ++ secure_filename orig)

/-- Path of the compressed output written by compress_pdf: directly in
the upload folder, named uid _ output filename. -/
def compressorOutputPath (root : FPath) (uid outName : Seg) : FPath :=
  os_path_join root (uid ++ ofs "_" ++ outName)

/-- PDFCompressorService.get_file_path: secures the filename itself,
then joins upload folder with uid _ filename as a single name. -/
def compressorGetFilePath (root : FPath) (uid fname : Seg) : FPath :=
  os_path_join root (uid ++ ofs "_" ++ secure_filename fname)

/-- The compression presets of _compress_with_advanced_method:
level to (jpeg quality, target dpi). -/
def compression_settings : List (Seg × (Nat × Nat)) :=
  [(ofs "low", (90, 150)), (ofs "medium", (75, 120)), (ofs "high", (60, 100))]

/-- Preset selection: dict.get with the medium preset as fallback for
an unknown level. -/
def settingsFor (level : Seg) : Nat × Nat :=
  match compression_settings.lookup level with
  | some s => s
  | none => (compression_settings.lookup (ofs "medium")).getD (0, 0)

/-- The per page rasterisation parameters of the advanced compression
path: each page is rendered at the dpi of the preset and re encoded at
its jpeg quality. -/
def advancedCompressParams (level : Seg) (pageSizes : List (ℚ × ℚ)) :
    List ((ℚ × ℚ) × Nat × Nat) :=
  pageSizes.map (fun wh => (wh, settingsFor level))

/-- The success payload of compress_pdf that the claims are about. -/
structure CompressPayload where
  original_size : Nat
  compressed_size : Nat
  compression_ratio : ℚ
deriving DecidableEq

/-- compression_ratio = (original - compressed) / original * 100, with
Python true division modelled as exact rational division. -/
def compressionRatio (o c : Nat) : ℚ :=
  ((o : ℚ) - (c : ℚ)) / (o : ℚ) * 100

/-- PDFCompressorService.compress_pdf after staging: the outcome of the
underlying compression run (_compress_pdf_file, an external library
call) is abstracted as the flag compressOk and the resulting output
byte count c; on success the payload reports both sizes and the ratio,
whatever their relation. -/
def compress_pdf (compressOk : Bool) (o c : Nat) : Option CompressPayload :=
  if compressOk then some ⟨o, c, compressionRatio o c⟩ else none

/-! ### Image to PDF service (src/services/image_to_pdf.py) -/

/-- reportlab A4 width in points, 210 mm at 72 / 25.4 points per mm
(float arithmetic modelled as exact rationals). -/
def A4width : ℚ := 210 * 72 / (254 / 10)

/-- reportlab A4 height in points, 297 mm. -/
def A4height : ℚ := 297 * 72 / (254 / 10)

/-- ImageToPDFService.MARGIN_SETTINGS, in points. -/
def MARGIN_SETTINGS : List (Seg × ℚ) :=
  [(ofs "none", 0), (ofs "small", 36), (ofs "medium", 72), (ofs "large", 144)]

/-- Membership test margin_size in MARGIN_SETTINGS. -/
def validMarginSize (s : Seg) : Bool := (MARGIN_SETTINGS.lookup s).isSome

/-- convert_images_to_pdf replaces an unknown margin size by medium. -/
def resolveMarginSize (s : Seg) : Seg :=
  if validMarginSize s then s else ofs "medium"

/-- The margin in points actually used by convert_images_to_pdf. -/
def marginValue (s : Seg) : ℚ :=
  (MARGIN_SETTINGS.lookup (resolveMarginSize s)).getD 0

/-- Where and how large one image is drawn on its page by
_convert_images_with_margins. -/
structure PagePlacement where
  x : ℚ
  y : ℚ
  w : ℚ
  h : ℚ
deriving DecidableEq

instance : Inhabited PagePlacement := ⟨⟨0, 0, 0, 0⟩⟩

/-- The drawing geometry of _convert_images_with_margins for one image
of pixel size imgW by imgH: with margin zero the image fills the page;
otherwise it is scaled by the smaller of the two available space
ratios and centred. -/
def placeImage (margin imgW imgH : ℚ) : PagePlacement :=
  if margin = 0 then ⟨0, 0, A4width, A4height⟩
  else
    let availableW := A4width - 2 * margin
    let availableH := A4height - 2 * margin
    let r := min (availableW / imgW) (availableH / imgH)
    ⟨margin + (availableW - imgW * r) / 2,
     margin + (availableH - imgH * r) / 2,
     imgW * r, imgH * r⟩

/-- _convert_images_with_margins draws one page per image, in input
order. -/
def convert_images_with_margins (margin : ℚ) (imgs : List (ℚ × ℚ)) :
    List PagePlacement :=
  imgs.map (fun wh => placeImage margin wh.1 wh.2)

/-- ImageToPDFService.convert_images_to_pdf, geometry part: resolve the
margin option, then lay out the pages. -/
def convert_images_to_pdf (marginSize : Seg) (imgs : List (ℚ × ℚ)) :
    List PagePlacement :=
  convert_images_with_margins (marginValue marginSize) imgs

/-- Path of the temporary image copy saved by
_convert_images_with_margins. -/
def imageToPdfTempPath (root : FPath) (uid orig : Seg) : FPath :=
  os_path_join root (ofs "temp_" ++ uid ++ ofs "_" ++ secure_filename orig)

/-- Path of the pdf output of convert_images_to_pdf. -/
def imageToPdfOutputPath (root : FPath) (uid outName : Seg) : FPath :=
  os_path_join root (uid ++ ofs "_" ++ outName)

/-- ImageToPDFService.get_file_path. -/
def imageToPdfGetFilePath (root : FPath) (uid fname : Seg) : FPath :=
  os_path_join root (uid ++ ofs "_" ++ secure_filename fname)

/-! ### Word to PDF validation (src/services/word_to_pdf.py) -/

/-- An uploaded file as seen by the validation code: its client
filename and its byte count. -/
structure UploadedFile where
  filename : Seg
  size : Nat
deriving DecidableEq

/-- Python str.lower, ASCII model. -/
def pyLower (l : Seg) : Seg := l.map Char.toLower

/-- Index of the last occurrence of a character. -/
def lastIndexOf (c : Char) (l : Seg) : Option Nat :=
  match l.reverse.findIdx? (fun d => d = c) with
  | some j => some (l.length - 1 - j)
  | none => none

/-- os.path.splitext on posix: split at the last dot of the basename,
except that leading dots of the basename do not start an extension. -/
def splitext (p : Seg) : Seg × Seg :=
  let sepIdx : Int := match lastIndexOf '/' p with
    | some i => (i : Int)
    | none => -1
  let dotIdx : Int := match lastIndexOf '.' p with
    | some i => (i : Int)
    | none => -1
  if sepIdx < dotIdx then
    let base := (p.take dotIdx.toNat).drop (sepIdx + 1).toNat
    if base.any (fun c => c ≠ '.') then
      (p.take dotIdx.toNat, p.drop dotIdx.toNat)
    else (p, [])
  else (p, [])

/-- The extension list accepted by _validate_word_file. -/
def wordAllowedExtensions : List Seg := [ofs ".docx", ofs ".doc"]

/-- The 16 MiB limit checked inside _validate_word_file. -/
def MAX_WORD_SIZE : Nat := 16 * 1024 * 1024

/-- WordToPDFService. _validate_word_file: no file, empty filename,
extension not .docx or .doc, then the size check, in that order. -/
def validate_word_file (files : List UploadedFile) :
    Except Seg UploadedFile :=
  match files with
  | [] => .error (ofs "No files provided")
  | f :: _ =>
    if f.filename.isEmpty then .error (ofs "No file selected")
    else if !(wordAllowedExtensions.contains (splitext (pyLower f.filename)).2)
    then
      .error (ofs "Invalid file type. Please upload a Word document (.docx or .doc)")
    else if MAX_WORD_SIZE < f.size then
      .error (ofs "File size too large. Maximum allowed size is 16MB.")
    else .ok f

/-- The filesystem side effects of convert_word_to_pdf that matter to
the claims: workspace creation and input staging. -/
inductive FsAction
  | mkWorkspace (path : FPath)
  | stageFile (path : FPath)
deriving DecidableEq

/-- WordToPDFService.convert_word_to_pdf: validation first; only on
success is the workspace created and the input staged, then the
conversion itself (an external library call, abstracted as convertOk)
runs.  Returns the outcome and the list of filesystem actions taken. -/
def convert_word_to_pdf (convertOk : Bool) (root : FPath) (uid : Seg)
    (f : UploadedFile) : Except Seg Seg × List FsAction :=
  match validate_word_file [f] with
  | .error e => (.error e, [])
  | .ok vf =>
    let tempDir := create_temp_directory root uid
    let staged := os_path_join tempDir (stagedFileName 0 vf.filename)
    let outName := secure_output_filename
      ((splitext vf.filename).1 ++ ofs ".pdf") (ofs "word-to-pdf.pdf")
    if convertOk then (.ok outName, [.mkWorkspace tempDir, .stageFile staged])
    else (.error (ofs "Error converting Word to PDF"),
      [.mkWorkspace tempDir, .stageFile staged])

/-! ### Download route (src/routes/pdf_routes.py download_file) -/

/-- The service owning a download, guessed by download_file from the
filename shape. -/
inductive ServiceKind
  | pdfToWord
  | imageToPdf
  | compressor
  | splitter
  | wordToPdf
  | merger
deriving DecidableEq

/-- The Python substring operator needle in haystack. -/
def subIn (needle : Seg) : Seg → Bool
  | [] => needle.isEmpty
  | c :: rest => needle.isPrefixOf (c :: rest) || subIn needle rest

/-- The service dispatch of download_file, on the already secured
filename. -/
def selectService (fname : Seg) : ServiceKind :=
  if (ofs ".docx").isSuffixOf fname then .pdfToWord
  else if (ofs "images-to-pdf").isPrefixOf fname then .imageToPdf
  else if subIn (ofs "compressed") fname then .compressor
  else if subIn (ofs "split") fname && (ofs ".zip").isSuffixOf fname then
    .splitter
  else if (ofs "word-to-pdf").isPrefixOf fname
      || subIn (ofs "word-to-pdf") fname then .wordToPdf
  else .merger

/-- get_file_path of the dispatched service. -/
def serviceGetFilePath (k : ServiceKind) (root : FPath) (uid fname : Seg) :
    FPath :=
  match k with
  | .pdfToWord => pdfToWordGetFilePath root uid fname
  | .imageToPdf => imageToPdfGetFilePath root uid fname
  | .compressor => compressorGetFilePath root uid fname
  | .splitter => splitterGetFilePath root uid fname
  | .wordToPdf => wordToPdfGetFilePath root uid fname
  | .merger => mergerGetFilePath root uid fname

/-- download_file: secure the filename, dispatch on it, resolve the
path through the service. -/
def download_file (root : FPath) (uid fname : Seg) : FPath :=
  let f := secure_filename fname
  serviceGetFilePath (selectService f) root uid f

/-- Strict containment of a path in a directory: the directory is a
proper leading part of the path. -/
def inDir (d p : FPath) : Bool :=
  d.isPrefixOf p && decide (d.length < p.length)

/-! ## Helper lemmas about secure_filename -/

theorem allowedChar_toNat {c : Char} (h : allowedChar c = true) :
    45 ≤ c.toNat ∧ c.toNat < 128 ∧ c.toNat ≠ 47 := by
  simp [allowedChar, Char.le_def] at h
  rcases h with ((((⟨h1, h2⟩ | ⟨h1, h2⟩) | ⟨h1, h2⟩) | h1) | h1) | h1
  · have a : 65 ≤ c.toNat := h1
    have b : c.toNat ≤ 90 := h2
    omega
  · have a : 97 ≤ c.toNat := h1
    have b : c.toNat ≤ 122 := h2
    omega
  · have a : 48 ≤ c.toNat := h1
    have b : c.toNat ≤ 57 := h2
    omega
  · subst h1; refine ⟨by decide, by decide, by decide⟩
  · subst h1; refine ⟨by decide, by decide, by decide⟩
  · subst h1; refine ⟨by decide, by decide, by decide⟩

theorem allowedChar_not_space {c : Char} (h : allowedChar c = true) :
    pyIsSpace c = false := by
  obtain ⟨hlo, -, -⟩ := allowedChar_toNat h
  simp only [pyIsSpace, Bool.or_eq_false_iff, decide_eq_false_iff_not]
  refine ⟨⟨⟨⟨⟨?_, ?_⟩, ?_⟩, ?_⟩, ?_⟩, ?_⟩ <;>
    (intro he; subst he; revert hlo; decide)

theorem allowedChar_ne_slash {c : Char} (h : allowedChar c = true) :
    c ≠ '/' := by
  obtain ⟨-, -, h47⟩ := allowedChar_toNat h
  intro he; subst he; exact h47 rfl

theorem mem_stripEnds {c : Char} {l : List Char} (h : c ∈ stripEnds l) :
    c ∈ l := by
  unfold stripEnds at h
  have h1 := List.rdropWhile_prefix (l := List.dropWhile stripChar l)
    (p := stripChar)
  have h2 := List.dropWhile_suffix (l := l) (p := stripChar)
  exact h2.sublist.mem (h1.sublist.mem h)

theorem stripEnds_stripEnds (l : List Char) :
    stripEnds (stripEnds l) = stripEnds l := by
  unfold stripEnds
  have key : List.dropWhile stripChar
      (List.rdropWhile stripChar (List.dropWhile stripChar l)) =
      List.rdropWhile stripChar (List.dropWhile stripChar l) := by
    set s := List.dropWhile stripChar l with hs
    set t := List.rdropWhile stripChar s with ht
    rw [List.dropWhile_eq_self_iff]
    intro hl
    have hpre : t <+: s := List.rdropWhile_prefix _ _
    have hslen : 0 < s.length := Nat.lt_of_lt_of_le hl hpre.length_le
    have hget : t.get ⟨0, hl⟩ = s.get ⟨0, hslen⟩ := by
      simpa [List.get_eq_getElem] using hpre.getElem hl
    rw [hget]
    have hne : s ≠ [] := List.ne_nil_of_length_pos hslen
    have hh : stripChar (s.head hne) = false :=
      List.head_dropWhile_not stripChar l hne
    have hsg : s.get ⟨0, hslen⟩ = s.head hne := by
      simp [List.get_eq_getElem, List.getElem_zero]
    rw [hsg, hh]
    exact Bool.false_ne_true
  rw [key, List.rdropWhile_idempotent]

theorem mem_secure_allowed {c : Char} {l : List Char}
    (h : c ∈ secure_filename l) : allowedChar c = true := by
  unfold secure_filename at h
  have := mem_stripEnds h
  exact (List.mem_filter.mp this).2

/-- werkzeug secure_filename is idempotent: its output is a fixed
point, so securing an already secured name changes nothing. -/
theorem secure_filename_idem (l : List Char) :
    secure_filename (secure_filename l) = secure_filename l := by
  have hmem : ∀ c ∈ secure_filename l, allowedChar c = true :=
    fun c hc => mem_secure_allowed hc
  set s := secure_filename l with hs
  show secure_filename s = s
  have h1 : asciiOnly s = s :=
    List.filter_eq_self.mpr (fun c hc => by
      simpa using (allowedChar_toNat (hmem c hc)).2.1)
  have h2 : sepToSpace s = s := by
    have hc : ∀ c ∈ s, (if c = '/' then ' ' else c) = c := fun c hc => by
      rw [if_neg (allowedChar_ne_slash (hmem c hc))]
    unfold sepToSpace
    rw [List.map_congr_left hc]
    simp
  by_cases hnil : s = []
  · rw [hnil]; rfl
  · have hnosp : ∀ x ∈ s, ¬ pyIsSpace x := fun x hx => by
      simp [allowedChar_not_space (hmem x hx)]
    have h3 : pyWords s = [s] := by
      unfold pyWords
      rw [List.splitOnP_eq_single _ _ hnosp]
      simp [hnil]
    have h4 : joinUnderscore [s] = s := by
      simp [joinUnderscore, List.intercalate]
    have h5 : keepAllowed s = s := List.filter_eq_self.mpr hmem
    have h6 : stripEnds s = s := by
      rw [hs]
      unfold secure_filename
      exact stripEnds_stripEnds _
    unfold secure_filename
    rw [h1, h2, h3, h4, h5, h6]

/-! ## Helper lemmas about the filesystem model -/

instance : Nonempty (FPath × FsEntry) := ⟨([], .file)⟩

theorem lookup_removePath (fs : Fs) (p : FPath) :
    (fs.removePath p).lookupEntry p = none := by
  show ((fs.entries.filter (fun e => !(e.1 == p))).lookup p) = none
  induction fs.entries with
  | nil => rfl
  | cons e es ih =>
    rw [List.filter_cons]
    by_cases h : e.1 = p
    · have hb : (!(e.1 == p)) = false := by simp [h]
      rw [hb]
      simpa using ih
    · have hb : (!(e.1 == p)) = true := by simp [h]
      rw [hb]
      simp only [if_true]
      have hb2 : (p == e.1) = false := beq_eq_false_iff_ne.mpr (Ne.symm h)
      rw [List.lookup, hb2]
      exact ih

theorem isdir_exists {fs : Fs} {p : FPath} (h : os_path_isdir fs p = true) :
    os_path_exists fs p = true ∧ os_path_isfile fs p = false := by
  have hl : fs.lookupEntry p = some .dir := by
    simpa [os_path_isdir] using h
  simp [os_path_exists, os_path_isfile, hl]

/-! ## The claims -/

/-- C2 counterexample: cleanup_files with delay 0 on a directory that
still contains a file removes nothing at all, while the claim says the
directory and its contents are removed for every directory. -/
theorem c2_counterexample :
    (cleanup_files noOsErrors
        ⟨[([ofs "d"], .dir), ([ofs "d", ofs "x"], .file)]⟩
        [[ofs "d"]] 0).fsAtReturn =
      ⟨[([ofs "d"], .dir), ([ofs "d", ofs "x"], .file)]⟩ ∧
    os_path_exists
      (cleanup_files noOsErrors
          ⟨[([ofs "d"], .dir), ([ofs "d", ofs "x"], .file)]⟩
          [[ofs "d"]] 0).fsAtReturn [ofs "d"] = true := by
  constructor
  · rfl
  · rfl

/-- C2 (amended): cleanup_files with delay 0 on a directory path
removes the directory only when it is empty; a directory that still
contains anything is left in place together with its contents; applying
it to an absent path returns normally with the filesystem unchanged. -/
theorem c2_cleanup_dir_behaviour (err : OsErrors) (fs : Fs) (p : FPath) :
    (os_path_exists fs p = false →
      cleanup_files err fs [p] 0 = ⟨fs, [], 0⟩) ∧
    (os_path_isdir fs p = true → os_listdir_isEmpty fs p = true →
      err.rmdirFails p = false →
      (cleanup_files err fs [p] 0).fsAtReturn = fs.removePath p ∧
      os_path_exists (fs.removePath p) p = false) ∧
    (os_path_isdir fs p = true → os_listdir_isEmpty fs p = false →
      cleanup_files err fs [p] 0 = ⟨fs, [], 0⟩) := by
  refine ⟨?_, ?_, ?_⟩
  · intro hex
    simp [cleanup_files, delayedCleanupRun, cleanupBody, hex]
  · intro hdir hemp herr
    obtain ⟨hex, hfile⟩ := isdir_exists hdir
    constructor
    · simp [cleanup_files, delayedCleanupRun, cleanupBody, hex, hfile, hdir,
        hemp, herr]
    · simp [os_path_exists, lookup_removePath]
  · intro hdir hemp
    obtain ⟨hex, hfile⟩ := isdir_exists hdir
    simp [cleanup_files, delayedCleanupRun, cleanupBody, hex, hfile, hdir,
      hemp]

/-- C2 witness: the amended theorem applied to an empty directory, a
directory with content, and an absent path, all concrete. -/
theorem c2_cleanup_dir_behaviour_witness :
    (cleanup_files noOsErrors ⟨[([ofs "e"], .dir)]⟩ [[ofs "e"]] 0).fsAtReturn
        = Fs.removePath ⟨[([ofs "e"], .dir)]⟩ [ofs "e"] ∧
    cleanup_files noOsErrors ⟨[]⟩ [[ofs "gone"]] 0 = ⟨⟨[]⟩, [], 0⟩ ∧
    cleanup_files noOsErrors
        ⟨[([ofs "d"], .dir), ([ofs "d", ofs "x"], .file)]⟩ [[ofs "d"]] 0 =
      ⟨⟨[([ofs "d"], .dir), ([ofs "d", ofs "x"], .file)]⟩, [], 0⟩ := by
  refine ⟨((c2_cleanup_dir_behaviour noOsErrors ⟨[([ofs "e"], .dir)]⟩
      [ofs "e"]).2.1 (by decide) (by decide) rfl).1, ?_, ?_⟩
  · exact (c2_cleanup_dir_behaviour noOsErrors ⟨[]⟩ [ofs "gone"]).1 rfl
  · exact (c2_cleanup_dir_behaviour noOsErrors
      ⟨[([ofs "d"], .dir), ([ofs "d", ofs "x"], .file)]⟩ [ofs "d"]).2.2
      (by decide) (by decide)

/-- C3: the cleanup loop never lets an exception escape to the caller,
whatever deletion errors the environment produces, and with delay 0 the
deletions run synchronously: at return the filesystem is the result of
the loop and nothing is deferred. -/
theorem c3_cleanup_never_raises (err : OsErrors) (fs : Fs)
    (paths : List FPath) :
    delayedCleanupE err fs paths = .ok (delayedCleanupRun err fs paths) ∧
    cleanup_files err fs paths 0 =
      ⟨delayedCleanupRun err fs paths, [], 0⟩ := by
  constructor
  · induction paths generalizing fs with
    | nil => rfl
    | cons p ps ih =>
      simp only [delayedCleanupE, delayedCleanupRun]
      cases cleanupBody err fs p with
      | ok fs2 => exact ih fs2
      | error e => exact ih fs
  · simp [cleanup_files]

/-- C8: whenever compress_pdf succeeds its payload reports the byte
counts of the input and output files unchanged (positive when the files
are), with compression_ratio exactly (original - compressed) / original
* 100; an output at least as large as the input still succeeds, with a
ratio at most zero. -/
theorem c8_compress_payload (ok : Bool) (o c : Nat) (ho : 0 < o) :
    (∀ p, compress_pdf ok o c = some p →
      p.original_size = o ∧ p.compressed_size = c ∧
      0 < p.original_size ∧ (0 < c → 0 < p.compressed_size) ∧
      p.compression_ratio = ((o : ℚ) - (c : ℚ)) / (o : ℚ) * 100) ∧
    (ok = true → ∃ p, compress_pdf ok o c = some p ∧
      (o ≤ c → p.compression_ratio ≤ 0)) := by
  constructor
  · intro p hp
    cases ok with
    | false => simp [compress_pdf] at hp
    | true =>
      have hp2 : p = ⟨o, c, compressionRatio o c⟩ := by
        simpa [compress_pdf] using hp.symm
      subst hp2
      exact ⟨rfl, rfl, ho, fun hc => hc, rfl⟩
  · intro hok
    subst hok
    refine ⟨⟨o, c, compressionRatio o c⟩, rfl, ?_⟩
    intro hoc
    show compressionRatio o c ≤ 0
    unfold compressionRatio
    have h1 : ((o : ℚ) - (c : ℚ)) ≤ 0 := by
      have := (Nat.cast_le (α := ℚ)).mpr hoc
      linarith
    have h2 : (0 : ℚ) < (o : ℚ) := by exact_mod_cast ho
    have h3 : ((o : ℚ) - (c : ℚ)) / (o : ℚ) ≤ 0 :=
      div_nonpos_iff.mpr (Or.inr ⟨h1, h2.le⟩)
    linarith

/-- C8 witness: a compression that grew the file from 100 to 120 bytes
still succeeds, with a nonpositive ratio. -/
theorem c8_compress_payload_witness :
    (0 < 100) ∧ ∃ p, compress_pdf true 100 120 = some p ∧
      (100 ≤ 120 → p.compression_ratio ≤ 0) :=
  ⟨by decide, (c8_compress_payload true 100 120 (by decide)).2 rfl⟩

/-- C9: an unknown margin size string falls back to the medium margin
and an unknown compression level falls back to the medium preset, each
producing exactly the result of passing medium. -/
theorem c9_invalid_option_defaults (s level : Seg)
    (imgs ps : List (ℚ × ℚ))
    (hs : s ∉ [ofs "none", ofs "small", ofs "medium", ofs "large"])
    (hl : level ∉ [ofs "low", ofs "medium", ofs "high"]) :
    marginValue s = marginValue (ofs "medium") ∧
    convert_images_to_pdf s imgs =
      convert_images_to_pdf (ofs "medium") imgs ∧
    settingsFor level = settingsFor (ofs "medium") ∧
    advancedCompressParams level ps =
      advancedCompressParams (ofs "medium") ps := by
  have h1 : (s == ofs "none") = false :=
    beq_eq_false_iff_ne.mpr (fun h => hs (by simp [h]))
  have h2 : (s == ofs "small") = false :=
    beq_eq_false_iff_ne.mpr (fun h => hs (by simp [h]))
  have h3 : (s == ofs "medium") = false :=
    beq_eq_false_iff_ne.mpr (fun h => hs (by simp [h]))
  have h4 : (s == ofs "large") = false :=
    beq_eq_false_iff_ne.mpr (fun h => hs (by simp [h]))
  have hv : validMarginSize s = false := by
    simp [validMarginSize, MARGIN_SETTINGS, List.lookup, h1, h2, h3, h4]
  have hm : marginValue s = marginValue (ofs "medium") := by
    simp [marginValue, resolveMarginSize, hv]
  have h5 : (level == ofs "low") = false :=
    beq_eq_false_iff_ne.mpr (fun h => hl (by simp [h]))
  have h6 : (level == ofs "medium") = false :=
    beq_eq_false_iff_ne.mpr (fun h => hl (by simp [h]))
  have h7 : (level == ofs "high") = false :=
    beq_eq_false_iff_ne.mpr (fun h => hl (by simp [h]))
  have hsettings : settingsFor level = settingsFor (ofs "medium") := by
    have hml : ((ofs "medium") == ofs "low") = false := by decide
    have hmm : ((ofs "medium") == ofs "medium") = true := by decide
    simp [settingsFor, compression_settings, List.lookup, h5, h6, h7,
      hml, hmm]
  refine ⟨hm, ?_, hsettings, ?_⟩
  · simp [convert_images_to_pdf, hm]
  · simp [advancedCompressParams, hsettings]

/-- C9 witness: the unknown option strings huge and max, on one
concrete image and page list. -/
theorem c9_invalid_option_defaults_witness :
    (ofs "huge") ∉ [ofs "none", ofs "small", ofs "medium", ofs "large"] ∧
    (ofs "max") ∉ [ofs "low", ofs "medium", ofs "high"] ∧
    convert_images_to_pdf (ofs "huge") [((100 : ℚ), (200 : ℚ))] =
      convert_images_to_pdf (ofs "medium") [((100 : ℚ), (200 : ℚ))] ∧
    settingsFor (ofs "max") = settingsFor (ofs "medium") := by
  have h := c9_invalid_option_defaults (ofs "huge") (ofs "max")
    [((100 : ℚ), (200 : ℚ))] [] (by decide) (by decide)
  exact ⟨by decide, by decide, h.2.1, h.2.2.1⟩

/-- C6: splitting a document of P pages by pages yields exactly P
outputs, reports count P, and output i is the one page document holding
page i of the input. -/
theorem c6_split_by_pages {α} [Inhabited α] (pages : List α) :
    (split_into_pages pages).2 = pages.length ∧
    (split_into_pages pages).1.length = pages.length ∧
    ∀ i, i < pages.length →
      ((split_into_pages pages).1)[i]? = (pages[i]?).map (fun a => [a]) := by
  refine ⟨rfl, by simp [split_into_pages], ?_⟩
  intro i hi
  simp [split_into_pages, List.getElem?_map, List.getElem?_range, hi,
    List.getElem?_eq_getElem hi, List.getD_eq_getElem?_getD]

/-- C6 witness: a three page document, checked at page index 1. -/
theorem c6_split_by_pages_witness :
    (split_into_pages [10, 20, 30]).2 = 3 ∧
    ((split_into_pages [10, 20, 30]).1)[1]? = some [20] := by
  have h := c6_split_by_pages [10, 20, 30]
  refine ⟨h.1, ?_⟩
  have h2 := h.2.2 1 (by decide)
  simpa using h2

/-- C7: with margin none the image is drawn at exactly the page size at
the origin (aspect ratio not preserved); with a positive margin the
drawn size is the image size scaled by the smaller of the two available
space ratios, fits inside the margin reduced area, preserves the aspect
ratio, and is centred on the page; and the conversion makes one page
per input image, in input order. -/
theorem c7_image_layout (m w h : ℚ) (imgs : List (ℚ × ℚ))
    (hm : 0 < m) (hw : 0 < w) (hh : 0 < h)
    (hmw : 2 * m < A4width) (hmh : 2 * m < A4height) :
    marginValue (ofs "none") = 0 ∧
    placeImage 0 w h = ⟨0, 0, A4width, A4height⟩ ∧
    ((placeImage m w h).w =
        w * min ((A4width - 2 * m) / w) ((A4height - 2 * m) / h) ∧
      (placeImage m w h).h =
        h * min ((A4width - 2 * m) / w) ((A4height - 2 * m) / h) ∧
      (placeImage m w h).w ≤ A4width - 2 * m ∧
      (placeImage m w h).h ≤ A4height - 2 * m ∧
      (placeImage m w h).w * h = (placeImage m w h).h * w ∧
      2 * (placeImage m w h).x + (placeImage m w h).w = A4width ∧
      2 * (placeImage m w h).y + (placeImage m w h).h = A4height) ∧
    ((convert_images_with_margins m imgs).length = imgs.length ∧
      ∀ i, i < imgs.length →
        (convert_images_with_margins m imgs)[i]? =
          (imgs[i]?).map (fun wh => placeImage m wh.1 wh.2)) := by
  refine ⟨by decide, by simp [placeImage], ?_, ?_⟩
  · have hm0 : m ≠ 0 := ne_of_gt hm
    set aw := A4width - 2 * m with haw
    set ah := A4height - 2 * m with hah
    set r := min (aw / w) (ah / h) with hr
    have hplace : placeImage m w h =
        ⟨m + (aw - w * r) / 2, m + (ah - h * r) / 2, w * r, h * r⟩ := by
      simp only [placeImage, if_neg hm0]
    rw [hplace]
    refine ⟨by ring, by ring, ?_, ?_, by ring, by simp [haw]; ring,
      by simp [hah]; ring⟩
    · have h1 : r ≤ aw / w := min_le_left _ _
      calc w * r ≤ w * (aw / w) := mul_le_mul_of_nonneg_left h1 hw.le
      _ = aw := by field_simp
    · have h1 : r ≤ ah / h := min_le_right _ _
      calc h * r ≤ h * (ah / h) := mul_le_mul_of_nonneg_left h1 hh.le
      _ = ah := by field_simp
  · refine ⟨by simp [convert_images_with_margins], ?_⟩
    intro i hi
    simp [convert_images_with_margins, List.getElem?_map]

/-- C7 witness: the medium margin of 72 points on a 100 by 200 image
and one concrete image list. -/
theorem c7_image_layout_witness :
    (0 : ℚ) < 72 ∧ (0 : ℚ) < 100 ∧ (0 : ℚ) < 200 ∧
    2 * (72 : ℚ) < A4width ∧ 2 * (72 : ℚ) < A4height ∧
    (placeImage 72 100 200).w * 200 = (placeImage 72 100 200).h * 100 ∧
    2 * (placeImage 72 100 200).x + (placeImage 72 100 200).w = A4width := by
  have h1 : (0 : ℚ) < 72 := by norm_num
  have h2 : (0 : ℚ) < 100 := by norm_num
  have h3 : (0 : ℚ) < 200 := by norm_num
  have h4 : 2 * (72 : ℚ) < A4width := by norm_num [A4width]
  have h5 : 2 * (72 : ℚ) < A4height := by norm_num [A4height]
  have h := c7_image_layout 72 100 200 [((100 : ℚ), (200 : ℚ))]
    h1 h2 h3 h4 h5
  exact ⟨h1, h2, h3, h4, h5, h.2.2.1.2.2.2.2.1, h.2.2.1.2.2.2.2.2.1⟩

theorem inDir_append_one (d : FPath) (s : Seg) : inDir d (d ++ [s]) = true := by
  unfold inDir
  rw [Bool.and_eq_true]
  constructor
  · exact List.isPrefixOf_iff_prefix.mpr (List.prefix_append d [s])
  · simp

theorem inDir_append_two (d : FPath) (s t : Seg) :
    inDir d (d ++ [s, t]) = true := by
  unfold inDir
  rw [Bool.and_eq_true]
  constructor
  · exact List.isPrefixOf_iff_prefix.mpr (List.prefix_append d [s, t])
  · simp

theorem not_inDir_sibling (root : FPath) (uid s : Seg) (h : uid ≠ s) :
    inDir (root ++ [uid]) (root ++ [s]) = false := by
  unfold inDir
  simp only [Bool.and_eq_false_iff]
  left
  rw [Bool.eq_false_iff]
  intro hc
  have hp := List.isPrefixOf_iff_prefix.mp hc
  have := List.IsPrefix.eq_of_length hp (by simp)
  simp at this
  exact h this

theorem seg_ne_of_length_lt {a b : Seg} (h : a.length < b.length) :
    a ≠ b := by
  intro he
  subst he
  exact Nat.lt_irrefl _ h

/-- C1 counterexample: a successful compress job serves its result from
uploadRoot/ jobID _ filename, a sibling of the per job directory, not
from inside uploadRoot/ jobID /. -/
theorem c1_counterexample :
    inDir (os_path_join [ofs "uploads"] (ofs "j1"))
      (compressorGetFilePath [ofs "uploads"] (ofs "j1") (ofs "out.pdf")) =
      false ∧
    inDir (os_path_join [ofs "uploads"] (ofs "j1"))
      (compressorOutputPath [ofs "uploads"] (ofs "j1")
        (ofs "doc_compressed.pdf")) = false ∧
    inDir (os_path_join [ofs "uploads"] (ofs "j1"))
      (compressorTempPath [ofs "uploads"] (ofs "j1") (ofs "doc.pdf")) =
      false := by
  refine ⟨by decide, by decide, by decide⟩

/-- C1 (amended): the merger, splitter, pdf to word and word to pdf
services stage and produce every artifact inside uploadRoot/ jobID /
and serve downloads from inside that directory; the compressor and the
image to pdf service instead place staged copies and results directly
in uploadRoot as siblings named with the jobID (uid _ name, and temp_
uid _ name for staged copies), never inside uploadRoot/ jobID /. -/
theorem c1_artifact_locations (root : FPath)
    (uid orig rawOut outName fname desc : Seg) (i pageNum : Nat) :
    (inDir (create_temp_directory root uid)
        (mergerStagedPath root uid i orig) = true ∧
      inDir (create_temp_directory root uid)
        (mergerOutputPath root uid rawOut) = true ∧
      inDir (create_temp_directory root uid)
        (mergerGetFilePath root uid fname) = true) ∧
    (inDir (create_temp_directory root uid)
        (splitterStagedPath root uid i orig) = true ∧
      inDir (create_temp_directory root uid)
        (splitterPagePath root uid outName pageNum) = true ∧
      inDir (create_temp_directory root uid)
        (splitterRangePath root uid outName desc) = true ∧
      inDir (create_temp_directory root uid)
        (splitterZipPath root uid outName) = true ∧
      inDir (create_temp_directory root uid)
        (splitterGetFilePath root uid fname) = true) ∧
    (inDir (create_temp_directory root uid)
        (pdfToWordStagedPath root uid i orig) = true ∧
      inDir (create_temp_directory root uid)
        (pdfToWordOutputPath root uid outName) = true ∧
      inDir (create_temp_directory root uid)
        (pdfToWordGetFilePath root uid fname) = true) ∧
    (inDir (create_temp_directory root uid)
        (wordToPdfStagedPath root uid i orig) = true ∧
      inDir (create_temp_directory root uid)
        (wordToPdfOutputPath root uid outName) = true ∧
      inDir (create_temp_directory root uid)
        (wordToPdfGetFilePath root uid fname) = true) ∧
    (inDir root (compressorTempPath root uid orig) = true ∧
      inDir root (compressorOutputPath root uid outName) = true ∧
      inDir root (compressorGetFilePath root uid fname) = true ∧
      inDir (create_temp_directory root uid)
        (compressorTempPath root uid orig) = false ∧
      inDir (create_temp_directory root uid)
        (compressorOutputPath root uid outName) = false ∧
      inDir (create_temp_directory root uid)
        (compressorGetFilePath root uid fname) = false) ∧
    (inDir root (imageToPdfTempPath root uid orig) = true ∧
      inDir root (imageToPdfOutputPath root uid outName) = true ∧
      inDir root (imageToPdfGetFilePath root uid fname) = true ∧
      inDir (create_temp_directory root uid)
        (imageToPdfTempPath root uid orig) = false ∧
      inDir (create_temp_directory root uid)
        (imageToPdfOutputPath root uid outName) = false ∧
      inDir (create_temp_directory root uid)
        (imageToPdfGetFilePath root uid fname) = false) := by
  have htemp : ∀ s : Seg,
      uid ≠ ofs "temp_" ++ uid ++ ofs "_" ++ s := fun s =>
    seg_ne_of_length_lt (by simp [ofs] <;> omega)
  have hout : ∀ s : Seg, uid ≠ uid ++ ofs "_" ++ s := fun s =>
    seg_ne_of_length_lt (by simp [ofs] <;> omega)
  refine ⟨⟨?_, ?_, ?_⟩, ⟨?_, ?_, ?_, ?_, ?_⟩, ⟨?_, ?_, ?_⟩, ⟨?_, ?_, ?_⟩,
    ⟨?_, ?_, ?_, ?_, ?_, ?_⟩, ⟨?_, ?_, ?_, ?_, ?_, ?_⟩⟩
  all_goals first
    | exact inDir_append_one _ _
    | exact inDir_append_two _ _
    | exact not_inDir_sibling root uid _ (htemp _)
    | exact not_inDir_sibling root uid _ (hout _)

/-- C4 counterexample: the merger get_file_path uses the filename
argument as given, so the path it computes from a raw filename differs
from the path computed from its sanitized form. -/
theorem c4_counterexample :
    mergerGetFilePath [ofs "uploads"] (ofs "j") (ofs "..") ≠
      mergerGetFilePath [ofs "uploads"] (ofs "j")
        (secure_filename (ofs "..")) := by
  decide

/-- C4 (amended): the compressor and image to pdf get_file_path
sanitize internally, so they are invariant under pre sanitizing the
filename; the download route sanitizes the filename once before
resolving, so the served path is always computed from the sanitized
filename and is itself invariant under sanitization, for every
service. -/
theorem c4_sanitized_resolution (root : FPath) (uid fname : Seg) :
    compressorGetFilePath root uid fname =
      compressorGetFilePath root uid (secure_filename fname) ∧
    imageToPdfGetFilePath root uid fname =
      imageToPdfGetFilePath root uid (secure_filename fname) ∧
    download_file root uid fname =
      download_file root uid (secure_filename fname) ∧
    download_file root uid fname =
      serviceGetFilePath (selectService (secure_filename fname)) root uid
        (secure_filename fname) := by
  refine ⟨?_, ?_, ?_, rfl⟩
  · simp [compressorGetFilePath, secure_filename_idem]
  · simp [imageToPdfGetFilePath, secure_filename_idem]
  · simp [download_file, secure_filename_idem]

/-- C10 counterexample: an oversized upload whose extension is not a
Word extension is rejected with the file type message, not with the
file size message the claim prescribes for every oversized upload. -/
theorem c10_counterexample :
    (convert_word_to_pdf true [ofs "uploads"] (ofs "j")
        ⟨ofs "a.txt", 16 * 1024 * 1024 + 1⟩).1 =
      .error
        (ofs "Invalid file type. Please upload a Word document (.docx or .doc)") ∧
    ofs "Invalid file type. Please upload a Word document (.docx or .doc)" ≠
      ofs "File size too large. Maximum allowed size is 16MB." := by
  refine ⟨rfl, by decide⟩

/-- C10 (amended): every upload larger than 16 MiB is rejected by the
service itself before any workspace is created or any file staged; when
the upload has a nonempty filename with a Word extension the message is
exactly the file size message, while other oversized uploads fail an
earlier validation check with its own message. -/
theorem c10_oversize_rejected (ok : Bool) (root : FPath) (uid : Seg)
    (f : UploadedFile) (hsize : MAX_WORD_SIZE < f.size) :
    (∃ e, convert_word_to_pdf ok root uid f = (.error e, [])) ∧
    (f.filename.isEmpty = false →
      (wordAllowedExtensions.contains (splitext (pyLower f.filename)).2)
        = true →
      convert_word_to_pdf ok root uid f =
        (.error (ofs "File size too large. Maximum allowed size is 16MB."),
          [])) := by
  constructor
  · by_cases h1 : f.filename.isEmpty
    · exact ⟨ofs "No file selected",
        by simp [convert_word_to_pdf, validate_word_file, h1]⟩
    · by_cases h2 : (splitext (pyLower f.filename)).2 ∈ wordAllowedExtensions
      · refine ⟨ofs "File size too large. Maximum allowed size is 16MB.", ?_⟩
        simp [convert_word_to_pdf, validate_word_file, h1, h2, hsize]
      · refine ⟨ofs
          "Invalid file type. Please upload a Word document (.docx or .doc)",
          ?_⟩
        simp [convert_word_to_pdf, validate_word_file, h1, h2]
  · intro h1 h2
    have h2m : (splitext (pyLower f.filename)).2 ∈ wordAllowedExtensions := by
      simpa using h2
    simp [convert_word_to_pdf, validate_word_file, h1, h2m, hsize]

/-- C10 witness: a 16 MiB plus one byte docx upload, rejected with the
size message and no filesystem actions. -/
theorem c10_oversize_rejected_witness :
    MAX_WORD_SIZE < 16 * 1024 * 1024 + 1 ∧
    convert_word_to_pdf true [ofs "uploads"] (ofs "j")
        ⟨ofs "doc1.docx", 16 * 1024 * 1024 + 1⟩ =
      (.error (ofs "File size too large. Maximum allowed size is 16MB."),
        []) := by
  refine ⟨by decide, ?_⟩
  exact (c10_oversize_rejected true [ofs "uploads"] (ofs "j")
    ⟨ofs "doc1.docx", 16 * 1024 * 1024 + 1⟩ (by decide)).2 (by decide)
    (by decide)

/-! ## Helper lemmas for the splitter -/

theorem splitOnChar_ne_nil (sep : Char) (l : List Char) :
    splitOnChar sep l ≠ [] := by
  cases l with
  | nil => simp [splitOnChar]
  | cons c cs =>
    rw [splitOnChar]
    rcases hr : splitOnChar sep cs with - | ⟨w, ws⟩
    · simp only [hr]
      split <;> simp
    · simp only [hr]
      split <;> simp

theorem splitOnChar_no_sep {sep : Char} {w : List Char} (h : sep ∉ w) :
    splitOnChar sep w = [w] := by
  induction w with
  | nil => rfl
  | cons c cs ih =>
    have hc : c ≠ sep := fun he => h (he ▸ List.mem_cons_self c cs)
    have hcs : sep ∉ cs := fun hm => h (List.mem_cons_of_mem c hm)
    rw [splitOnChar, ih hcs]
    simp [hc]

theorem splitOnChar_sep_append (sep : Char) (w rest : List Char)
    (h : sep ∉ w) :
    splitOnChar sep (w ++ sep :: rest) = w :: splitOnChar sep rest := by
  induction w with
  | nil =>
    rw [List.nil_append, splitOnChar]
    rcases hr : splitOnChar sep rest with - | ⟨x, xs⟩
    · exact absurd hr (splitOnChar_ne_nil sep rest)
    · simp
  | cons c cs ih =>
    have hc : c ≠ sep := fun he => h (he ▸ List.mem_cons_self c cs)
    have hcs : sep ∉ cs := fun hm => h (List.mem_cons_of_mem c hm)
    rw [List.cons_append, splitOnChar, ih hcs]
    simp [hc]

theorem intRange_getElem? (a b : Int) (n : Nat) :
    (intRange a b)[n]? = if n < (b - a).toNat then some (a + (n : Int))
      else none := by
  rw [intRange, List.getElem?_map]
  by_cases h : n < (b - a).toNat
  · rw [List.getElem?_range h]
    simp [h]
  · rw [List.getElem?_eq_none (by simpa using Nat.le_of_not_lt h)]
    simp [h]

theorem mem_intRange {a b i : Int} :
    i ∈ intRange a b ↔ ∃ k : Nat, k < (b - a).toNat ∧ i = a + (k : Int) := by
  simp only [intRange, List.mem_map, List.mem_range]
  constructor
  · rintro ⟨k, hk, rfl⟩
    exact ⟨k, hk, rfl⟩
  · rintro ⟨k, hk, rfl⟩
    exact ⟨k, hk, rfl⟩

theorem range_slice_eq {α} [Inhabited α] (pages : List α) (s e : Int)
    (h1 : 1 ≤ s) (h3 : e ≤ (pages.length : Int)) :
    ((intRange (s - 1) e).filter
        (fun i => i < (pages.length : Int))).map
      (fun i => pages.getD i.toNat default) =
    (pages.take e.toNat).drop (s.toNat - 1) := by
  have hfilter : (intRange (s - 1) e).filter
      (fun i => i < (pages.length : Int)) = intRange (s - 1) e := by
    apply List.filter_eq_self.mpr
    intro i hi
    obtain ⟨k, hk, rfl⟩ := mem_intRange.mp hi
    simp only [decide_eq_true_eq]
    omega
  rw [hfilter]
  apply List.ext_getElem?
  intro n
  rw [List.getElem?_map, intRange_getElem?, List.getElem?_drop,
    List.getElem?_take]
  by_cases hn : n < (e - (s - 1)).toNat
  · have hcond : s.toNat - 1 + n < e.toNat := by omega
    have hlen : s.toNat - 1 + n < pages.length := by omega
    rw [if_pos hn, if_pos hcond, List.getElem?_eq_getElem hlen]
    have hidx : ((s - 1) + (n : Int)).toNat = s.toNat - 1 + n := by omega
    show some (pages.getD ((s - 1) + (n : Int)).toNat default) = _
    rw [hidx, List.getD_eq_getElem?_getD, List.getElem?_eq_getElem hlen]
    rfl
  · rw [if_neg hn]
    have hcond : ¬ (s.toNat - 1 + n < e.toNat) := by omega
    rw [if_neg hcond]
    simp

theorem collectRanges_error_of_mem {α} [Inhabited α] (pages : List α)
    {t : Seg} {toks : List Seg} {msg : Seg} (hmem : t ∈ toks)
    (herr : parsePageRange pages t = .error msg) :
    ∃ msg2, collectRanges pages toks = .error msg2 := by
  induction toks with
  | nil => cases hmem
  | cons t0 ts ih =>
    rw [collectRanges]
    rcases List.mem_cons.mp hmem with rfl | hmem2
    · rw [herr]
      exact ⟨msg, rfl⟩
    · cases hp : parsePageRange pages t0 with
      | error e => exact ⟨e, rfl⟩
      | ok out =>
        obtain ⟨m2, hm2⟩ := ih hmem2
        rw [hm2]
        exact ⟨m2, rfl⟩

theorem collectRanges_ok {α} [Inhabited α] (pages : List α)
    {toks : List Seg} {outs : List (List α)}
    (h : collectRanges pages toks = .ok outs) :
    outs.length = toks.length ∧
    ∀ i, i < toks.length → ∃ out, outs[i]? = some out ∧
      parsePageRange pages (toks.getD i []) = .ok out := by
  induction toks generalizing outs with
  | nil =>
    rw [collectRanges] at h
    cases h
    exact ⟨rfl, fun i hi => absurd hi (by simp)⟩
  | cons t ts ih =>
    rw [collectRanges] at h
    cases hp : parsePageRange pages t with
    | error e => rw [hp] at h; cases h
    | ok out =>
      rw [hp] at h
      cases hc : collectRanges pages ts with
      | error e => rw [hc] at h; cases h
      | ok rest =>
        rw [hc] at h
        cases h
        obtain ⟨hlen, hpt⟩ := ih hc
        refine ⟨by simp [hlen], ?_⟩
        intro i hi
        cases i with
        | zero => exact ⟨out, by simp, hp⟩
        | succ j =>
          obtain ⟨o, ho, hpo⟩ := hpt j (by simpa using hi)
          exact ⟨o, by simpa using ho, by simpa using hpo⟩

/-- C5: in split by ranges, a dash token has its start clamped up to 1
and its end clamped down to the page count; a clamped inverted pair
fails the whole operation with a validation error; a single page token
out of 1..P fails; a token that parses as neither an integer nor an
integer dash pair fails with the format error (this covers dash tokens
whose halves do not both parse and dash splits of more or fewer than
two pieces); an
accepted dash token yields one output holding exactly the clamped pages
a through b of the input (1 based inclusive); and a success reports one
output per token with the count. -/
theorem c5_split_by_ranges {α} [Inhabited α] (pages : List α) :
    (∀ sa sb a b, pyInt sa = some a → pyInt sb = some b →
      ('-' : Char) ∉ sa → ('-' : Char) ∉ sb →
      (min (pages.length : Int) b < max 1 a →
        parsePageRange pages (sa ++ '-' :: sb) =
          .error (ofs "Invalid range: " ++ (sa ++ '-' :: sb) ++
            ofs " (start > end)")) ∧
      (max 1 a ≤ min (pages.length : Int) b →
        parsePageRange pages (sa ++ '-' :: sb) =
          .ok ((pages.take (min (pages.length : Int) b).toNat).drop
            ((max 1 a).toNat - 1)))) ∧
    (∀ tok n, ('-' : Char) ∉ tok → pyInt tok = some n →
      (n < 1 ∨ (pages.length : Int) < n →
        ∃ msg, parsePageRange pages tok = .error msg) ∧
      (1 ≤ n → n ≤ (pages.length : Int) →
        parsePageRange pages tok =
          .ok ((pages.take n.toNat).drop (n.toNat - 1)))) ∧
    (∀ tok, ('-' : Char) ∉ tok → pyInt tok = none →
      parsePageRange pages tok =
        .error (ofs "Invalid page range format: " ++ tok)) ∧
    (∀ tok, tok.contains '-' = true → dashPairMalformed tok = true →
      parsePageRange pages tok =
        .error (ofs "Invalid page range format: " ++ tok)) ∧
    (∀ t toks msg, t ∈ toks → parsePageRange pages t = .error msg →
      ∃ msg2, split_into_ranges pages toks = .error msg2) ∧
    (∀ toks outs cnt, split_into_ranges pages toks = .ok (outs, cnt) →
      outs.length = toks.length ∧ cnt = toks.length ∧
      ∀ i, i < toks.length → ∃ out, outs[i]? = some out ∧
        parsePageRange pages (toks.getD i []) = .ok out) := by
  refine ⟨?_, ?_, ?_, ?_, ?_, ?_⟩
  · intro sa sb a b hsa hsb hnsa hnsb
    have hcontains : (sa ++ '-' :: sb).contains '-' = true := by simp
    have hsplit : splitOnChar '-' (sa ++ '-' :: sb) = [sa, sb] := by
      rw [splitOnChar_sep_append '-' sa sb hnsa, splitOnChar_no_sep hnsb]
    constructor
    · intro hgt
      simp only [parsePageRange, hcontains, if_true, hsplit, hsa, hsb]
      rw [if_pos hgt]
    · intro hle
      have hnotlt : ¬ (min (pages.length : Int) b < max 1 a) :=
        not_lt.mpr hle
      simp only [parsePageRange, hcontains, if_true, hsplit, hsa, hsb]
      rw [if_neg hnotlt]
      rw [range_slice_eq pages (max 1 a) (min (pages.length : Int) b)
        (le_max_left 1 a) (min_le_left _ _)]
  · intro tok n hmem hint
    have hcontains : tok.contains '-' = false := by
      simp [hmem]
    constructor
    · intro hbad
      simp only [parsePageRange, hcontains, Bool.false_eq_true, if_false,
        hint]
      rw [if_pos hbad]
      exact ⟨_, rfl⟩
    · intro h1 h2
      have hnotbad : ¬ (n < 1 ∨ (pages.length : Int) < n) := by
        push_neg
        exact ⟨h1, not_lt.mp (not_lt.mpr h2)⟩
      simp only [parsePageRange, hcontains, Bool.false_eq_true, if_false,
        hint]
      rw [if_neg hnotbad]
      have hslice := range_slice_eq pages n n h1 h2
      have hone : ((n : Int) - ((n : Int) - 1)).toNat = 1 := by omega
      rw [← hslice]
      have hkeep : ((n : Int) - 1 < (pages.length : Int)) := by omega
      have hr1 : List.range 1 = [0] := rfl
      have hi : ((n : Int) - 1).toNat = n.toNat - 1 := by omega
      simp [intRange, hone, hr1, hkeep, hi]
  · intro tok hmem hint
    have hcontains : tok.contains '-' = false := by
      simp [hmem]
    simp only [parsePageRange, hcontains, Bool.false_eq_true, if_false,
      hint]
  · intro tok hcont hbad
    rw [dashPairMalformed] at hbad
    simp only [parsePageRange, hcont, if_true]
    split
    · rename_i x y heq
      rw [heq] at hbad
      split
      · rename_i s0 e0 hx hy
        simp [hx, hy] at hbad
      · rfl
    · rfl
  · intro t toks msg hmem herr
    have hne : toks ≠ [] := List.ne_nil_of_mem hmem
    obtain ⟨m2, hm2⟩ := collectRanges_error_of_mem pages hmem herr
    refine ⟨m2, ?_⟩
    rw [split_into_ranges, if_neg (by simpa [List.isEmpty_iff] using hne),
      hm2]
  · intro toks outs cnt h
    by_cases hne : toks.isEmpty
    · rw [split_into_ranges, if_pos hne] at h
      cases h
    · rw [split_into_ranges, if_neg hne] at h
      cases hc : collectRanges pages toks with
      | error e =>
        rw [hc] at h
        cases h
      | ok outs0 =>
        rw [hc] at h
        cases h
        obtain ⟨hlen, hpt⟩ := collectRanges_ok pages hc
        exact ⟨hlen, hlen, hpt⟩

/-- C5 witness: a six page document with tokens 1-3, 5, 1-10, the
rejected 4-2 and the malformed x, x-y and 1-2-3, matching the worked
example of the specification. -/
theorem c5_split_by_ranges_witness :
    pyInt (ofs "1") = some 1 ∧ pyInt (ofs "3") = some 3 ∧
    pyInt (ofs "4") = some 4 ∧ pyInt (ofs "2") = some 2 ∧
    pyInt (ofs "10") = some 10 ∧ pyInt (ofs "5") = some 5 ∧
    parsePageRange [10, 20, 30, 40, 50, 60] (ofs "1-3") =
      .ok [10, 20, 30] ∧
    parsePageRange [10, 20, 30, 40, 50, 60] (ofs "1-10") =
      .ok [10, 20, 30, 40, 50, 60] ∧
    parsePageRange [10, 20, 30, 40, 50, 60] (ofs "4-2") =
      .error (ofs "Invalid range: 4-2 (start > end)") ∧
    parsePageRange [10, 20, 30, 40, 50, 60] (ofs "5") = .ok [50] ∧
    (∃ msg, parsePageRange [10, 20, 30, 40, 50, 60] (ofs "7") =
      .error msg) ∧
    parsePageRange [10, 20, 30, 40, 50, 60] (ofs "x") =
      .error (ofs "Invalid page range format: x") ∧
    parsePageRange [10, 20, 30, 40, 50, 60] (ofs "x-y") =
      .error (ofs "Invalid page range format: " ++ ofs "x-y") ∧
    parsePageRange [10, 20, 30, 40, 50, 60] (ofs "1-2-3") =
      .error (ofs "Invalid page range format: " ++ ofs "1-2-3") ∧
    (∃ msg2, split_into_ranges [10, 20, 30, 40, 50, 60]
      [ofs "1-3", ofs "4-2"] = .error msg2) ∧
    (∀ outs cnt, split_into_ranges [10, 20, 30, 40, 50, 60]
        [ofs "1-3", ofs "5"] = .ok (outs, cnt) →
      outs.length = 2 ∧ cnt = 2) := by
  have h := c5_split_by_ranges [10, 20, 30, 40, 50, 60]
  obtain ⟨hpair, hsingle, hfmt, hdash, habort, hok⟩ := h
  refine ⟨by decide, by decide, by decide, by decide, by decide, by decide,
    ?_, ?_, ?_, ?_, ?_, ?_, ?_, ?_, ?_, ?_⟩
  · have := (hpair (ofs "1") (ofs "3") 1 3 (by decide) (by decide)
      (by decide) (by decide)).2 (by decide)
    simpa using this
  · have := (hpair (ofs "1") (ofs "10") 1 10 (by decide) (by decide)
      (by decide) (by decide)).2 (by decide)
    simpa using this
  · have := (hpair (ofs "4") (ofs "2") 4 2 (by decide) (by decide)
      (by decide) (by decide)).1 (by decide)
    simpa using this
  · have := (hsingle (ofs "5") 5 (by decide) (by decide)).2 (by decide)
      (by decide)
    simpa using this
  · exact (hsingle (ofs "7") 7 (by decide) (by decide)).1 (by decide)
  · exact hfmt (ofs "x") (by decide) (by decide)
  · exact hdash (ofs "x-y") (by decide) (by decide)
  · exact hdash (ofs "1-2-3") (by decide) (by decide)
  · exact habort (ofs "4-2") [ofs "1-3", ofs "4-2"]
      (ofs "Invalid range: 4-2 (start > end)") (by decide)
      (by
        have := (hpair (ofs "4") (ofs "2") 4 2 (by decide) (by decide)
          (by decide) (by decide)).1 (by decide)
        simpa using this)
  · intro outs cnt hsp
    obtain ⟨hl, hc, -⟩ := hok [ofs "1-3", ofs "5"] outs cnt hsp
    exact ⟨by simpa using hl, by simpa using hc⟩

end PdfTools
